import Mathlib

/-!
Shallow embedding of the two source files of this repository:

* `src/framework/frequency_manager.hpp` — the `FrequencyManager` class:
  frequency-level computation, cyclic level selection, per-cpu state
  capture and restore, and the availability check for the "userspace"
  scaling governor.

* `src/tests/ifs/ifs.c` — the In-Field Scan test: batch-progression
  logic of `load_test_file`, result-code classification
  (`is_result_code_skip`) and the per-core instance scanning loop of
  `scan_run`.

C `int` arithmetic is modelled with `Int` (with explicit truncating
division `Int.tdiv` where C's `/` appears); C buffers holding text are
modelled as `List Char`; fallible OS calls are modelled by explicit
outcome parameters.
-/

namespace FrequencyManager

/-- `static constexpr int total_frequency_levels = 9;` -/
def total_frequency_levels : Nat := 9

/-- `std::sort(tmp.begin(), tmp.end(), std::greater<int>())`: sort
descending.  On integers (a total order) every comparison sort produces
the same output list, so insertion sort is an exact model of
`std::sort`. -/
def sortDesc (l : List Int) : List Int := List.insertionSort (fun a b => b ≤ a) l

/-- The inner `for (int idx = 1; idx < tmp.size(); idx++)` loop of
`populate_frequency_levels`: it pushes `(tmp[idx] + tmp[idx - 1]) / 2`
for every adjacent pair of `tmp`; C++ `/` on `int` truncates toward
zero, i.e. `Int.tdiv`. -/
def midpoints : List Int → List Int
  | [] => []
  | [_] => []
  | a :: b :: rest => Int.tdiv (a + b) 2 :: midpoints (b :: rest)

/-- One iteration of the `while` loop body of
`populate_frequency_levels`: append to `frequency_levels` the adjacent
midpoints of its descending-sorted copy `tmp`. -/
def roundStep (levels : List Int) : List Int := levels ++ midpoints (sortDesc levels)

/-- The `while (frequency_levels.size() != total_frequency_levels)` loop
with explicit fuel (the C++ loop has no built-in bound; the theorems for
C10 show that 3 units of fuel already reach the exit condition from the
2-element seed). -/
def populateLoop : Nat → List Int → List Int
  | 0, l => l
  | f + 1, l => if l.length = total_frequency_levels then l else populateLoop f (roundStep l)

/-- `FrequencyManager::populate_frequency_levels`, as a function of the
recorded `max_frequency_supported` and `min_frequency_supported`: seed
with `[max, min]` and run the midpoint loop. -/
def populate_frequency_levels (maxF minF : Int) : List Int :=
  populateLoop total_frequency_levels [maxF, minF]

theorem midpoints_length : ∀ l : List Int, (midpoints l).length = l.length - 1
  | [] => rfl
  | [_] => rfl
  | _ :: b :: rest => by
      simp only [midpoints, List.length_cons]
      rw [midpoints_length (b :: rest)]
      simp

theorem sortDesc_length (l : List Int) : (sortDesc l).length = l.length :=
  List.length_insertionSort _ l

theorem roundStep_length (l : List Int) :
    (roundStep l).length = l.length + (l.length - 1) := by
  simp [roundStep, midpoints_length, sortDesc_length]

theorem populateLoop_done : ∀ (f : Nat) (l : List Int),
    l.length = total_frequency_levels → populateLoop f l = l
  | 0, _, _ => rfl
  | _ + 1, _, h => by simp [populateLoop, h]

theorem populateLoop_eq_three (f : Nat) (hf : 3 ≤ f) (a b : Int) :
    populateLoop f [a, b] = roundStep (roundStep (roundStep [a, b])) := by
  obtain ⟨g, rfl⟩ : ∃ g, f = g + 3 := ⟨f - 3, by omega⟩
  have h2 : ([a, b] : List Int).length = 2 := rfl
  have h3 : (roundStep [a, b]).length = 3 := by rw [roundStep_length, h2]
  have h5 : (roundStep (roundStep [a, b])).length = 5 := by rw [roundStep_length, h3]
  have h9 : (roundStep (roundStep (roundStep [a, b]))).length = 9 := by
    rw [roundStep_length, h5]
  show populateLoop (g + 1 + 1 + 1) [a, b] = _
  rw [populateLoop, if_neg (by rw [h2]; decide),
      populateLoop, if_neg (by rw [h3]; decide),
      populateLoop, if_neg (by rw [h5]; decide),
      populateLoop_done g _ h9]

theorem populateLoop_prefix : ∀ (f : Nat) (l : List Int), ∃ t, populateLoop f l = l ++ t
  | 0, l => ⟨[], by simp [populateLoop]⟩
  | f + 1, l => by
      by_cases h : l.length = total_frequency_levels
      · exact ⟨[], by simp [populateLoop, h]⟩
      · obtain ⟨t, ht⟩ := populateLoop_prefix f (roundStep l)
        refine ⟨midpoints (sortDesc l) ++ t, ?_⟩
        rw [populateLoop, if_neg h, ht, roundStep, List.append_assoc]

theorem tdiv2_lb (m s : Int) (h : 2 * m ≤ s) : m ≤ Int.tdiv s 2 := by
  match s with
  | Int.ofNat k =>
    rw [Int.ofNat_eq_coe] at h
    show m ≤ Int.ofNat (k / 2)
    rw [Int.ofNat_eq_coe]
    omega
  | Int.negSucc k =>
    rw [Int.negSucc_eq] at h
    show m ≤ -Int.ofNat ((k + 1) / 2)
    rw [Int.ofNat_eq_coe]
    omega

theorem tdiv2_ub (M s : Int) (h : s ≤ 2 * M) : Int.tdiv s 2 ≤ M := by
  match s with
  | Int.ofNat k =>
    rw [Int.ofNat_eq_coe] at h
    show Int.ofNat (k / 2) ≤ M
    rw [Int.ofNat_eq_coe]
    omega
  | Int.negSucc k =>
    rw [Int.negSucc_eq] at h
    show -Int.ofNat ((k + 1) / 2) ≤ M
    rw [Int.ofNat_eq_coe]
    omega

theorem mem_midpoints : ∀ {x : Int} {l : List Int}, x ∈ midpoints l →
    ∃ a b, a ∈ l ∧ b ∈ l ∧ x = Int.tdiv (a + b) 2
  | x, a :: b :: rest, hx => by
      rcases List.mem_cons.1 hx with h | h
      · exact ⟨a, b, List.mem_cons_self _ _, List.mem_cons_of_mem _ (List.mem_cons_self _ _), h⟩
      · obtain ⟨u, v, hu, hv, huv⟩ := mem_midpoints h
        exact ⟨u, v, List.mem_cons_of_mem _ hu, List.mem_cons_of_mem _ hv, huv⟩

theorem roundStep_bounds {m M : Int} {l : List Int}
    (h : ∀ x ∈ l, m ≤ x ∧ x ≤ M) : ∀ x ∈ roundStep l, m ≤ x ∧ x ≤ M := by
  intro x hx
  rcases List.mem_append.1 hx with hx | hx
  · exact h x hx
  · obtain ⟨a, b, ha, hb, rfl⟩ := mem_midpoints hx
    have ha' := h a ((List.mem_insertionSort _).1 ha)
    have hb' := h b ((List.mem_insertionSort _).1 hb)
    exact ⟨tdiv2_lb _ _ (by omega), tdiv2_ub _ _ (by omega)⟩

theorem populateLoop_bounds : ∀ (f : Nat) {m M : Int} {l : List Int},
    (∀ x ∈ l, m ≤ x ∧ x ≤ M) → ∀ x ∈ populateLoop f l, m ≤ x ∧ x ≤ M
  | 0, _, _, _, h => h
  | f + 1, m, M, l, h => by
      by_cases hl : l.length = total_frequency_levels
      · simpa [populateLoop, hl] using h
      · simpa [populateLoop, hl] using populateLoop_bounds f (roundStep_bounds h)

/-- C1, counterexample: the claim as stated fails at `(max, min) = (1, 0)`:
the sequence has the right length and endpoints, but the integer midpoint
of adjacent values collides with `min`, so the entries after the first two
are not strictly between `min` and `max`. -/
theorem c1_strict_bounds_counterexample :
    ¬ ((populate_frequency_levels 1 0).length = 9 ∧
       (populate_frequency_levels 1 0).getD 0 0 = 1 ∧
       (populate_frequency_levels 1 0).getD 1 0 = 0 ∧
       ∀ x ∈ (populate_frequency_levels 1 0).drop 2, 0 < x ∧ x < 1) := by
  intro h
  exact absurd (h.2.2.2 0 (by decide)).1 (by decide)

/-- C1 (amended): for every `(max, min)` with `max > min`,
`populate_frequency_levels` produces exactly 9 entries, the first equal to
`max`, the second equal to `min`, and every other entry lying in the closed
interval `[min, max]` (not necessarily strictly inside it: truncating
integer midpoints can collide with the endpoints, as the counterexample
shows). -/
theorem c1_populate_frequency_levels_bounds (maxF minF : Int) (h : minF < maxF) :
    (populate_frequency_levels maxF minF).length = 9 ∧
    (populate_frequency_levels maxF minF).getD 0 0 = maxF ∧
    (populate_frequency_levels maxF minF).getD 1 0 = minF ∧
    ∀ x ∈ (populate_frequency_levels maxF minF).drop 2, minF ≤ x ∧ x ≤ maxF := by
  have heq : populate_frequency_levels maxF minF
      = roundStep (roundStep (roundStep [maxF, minF])) :=
    populateLoop_eq_three _ (by decide) _ _
  obtain ⟨t, ht⟩ := populateLoop_prefix total_frequency_levels [maxF, minF]
  have hbase : ∀ y ∈ ([maxF, minF] : List Int), minF ≤ y ∧ y ≤ maxF := by
    intro y hy
    rcases List.mem_cons.1 hy with rfl | hy
    · exact ⟨h.le, le_rfl⟩
    · rcases List.mem_cons.1 hy with rfl | hy
      · exact ⟨le_rfl, h.le⟩
      · exact absurd hy (List.not_mem_nil y)
  refine ⟨?_, ?_, ?_, ?_⟩
  · rw [heq, roundStep_length, roundStep_length, roundStep_length]
    rfl
  · rw [populate_frequency_levels] at *
    rw [ht]
    rfl
  · rw [populate_frequency_levels] at *
    rw [ht]
    rfl
  · intro x hx
    exact populateLoop_bounds total_frequency_levels hbase x (List.drop_subset 2 _ hx)

/-- C1 witness: the amended statement at the concrete input `(9, 0)`. -/
theorem c1_populate_frequency_levels_bounds_witness :
    (0 : Int) < 9 ∧
    ((populate_frequency_levels 9 0).length = 9 ∧
     (populate_frequency_levels 9 0).getD 0 0 = 9 ∧
     (populate_frequency_levels 9 0).getD 1 0 = 0 ∧
     ∀ x ∈ (populate_frequency_levels 9 0).drop 2, 0 ≤ x ∧ x ≤ 9) :=
  ⟨by decide, c1_populate_frequency_levels_bounds 9 0 (by decide)⟩

/-- C10: the midpoint-insertion loop is total: from the 2-element seed
`[max, min]` the sequence length after each round is 3, then 5, then
exactly 9, so the `size != 9` exit condition is met after three rounds
for every input pair; any fuel `≥ 3` yields that same terminated
result. -/
theorem c10_populate_loop_total (maxF minF : Int) :
    (roundStep [maxF, minF]).length = 3 ∧
    (roundStep (roundStep [maxF, minF])).length = 5 ∧
    (roundStep (roundStep (roundStep [maxF, minF]))).length = 9 ∧
    ∀ f, 3 ≤ f →
      populateLoop f [maxF, minF] = roundStep (roundStep (roundStep [maxF, minF])) := by
  have h3 : (roundStep [maxF, minF]).length = 3 := by rw [roundStep_length]; rfl
  have h5 : (roundStep (roundStep [maxF, minF])).length = 5 := by rw [roundStep_length, h3]
  have h9 : (roundStep (roundStep (roundStep [maxF, minF]))).length = 9 := by
    rw [roundStep_length, h5]
  exact ⟨h3, h5, h9, fun f hf => populateLoop_eq_three f hf maxF minF⟩

/-- C10 witness: the loop-exit statement at the concrete input `(7, 1)`
with fuel 5. -/
theorem c10_populate_loop_total_witness :
    (3 : Nat) ≤ 5 ∧ populateLoop 5 [(7 : Int), 1] = roundStep (roundStep (roundStep [7, 1])) :=
  ⟨by decide, (c10_populate_loop_total 7 1).2.2.2 5 (by decide)⟩

/-- The mutable fields of `FrequencyManager` touched by
`change_frequency`: the computed level list, the cursor
(`frequency_level_idx`, a plain counter taken mod 9 at use), and the last
applied value (`current_set_frequency`). -/
structure FreqState where
  frequency_levels : List Int
  frequency_level_idx : Nat
  current_set_frequency : Int

/-- `FrequencyManager::change_frequency`:
`current_set_frequency = frequency_levels[frequency_level_idx++ % total_frequency_levels]`
(the same value is then written to every cpu's `scaling_setspeed` file;
a failing write exits the process).  Vector indexing is modelled with
`getD`. -/
def change_frequency (s : FreqState) : FreqState :=
  { s with
    current_set_frequency :=
      s.frequency_levels.getD (s.frequency_level_idx % total_frequency_levels) 0,
    frequency_level_idx := s.frequency_level_idx + 1 }

theorem change_frequency_iterate (levels : List Int) (k : Nat) :
    ∀ (i : Nat) (c : Int),
      change_frequency^[k + 1] ⟨levels, i, c⟩
        = ⟨levels, i + k + 1, levels.getD ((i + k) % total_frequency_levels) 0⟩ := by
  induction k with
  | zero => intro i c; simp [change_frequency]
  | succ k ih =>
      intro i c
      rw [Function.iterate_succ_apply, change_frequency]
      have := ih (i + 1) (levels.getD (i % total_frequency_levels) 0)
      simp only at this ⊢
      rw [this]
      have harith : i + 1 + k = i + (k + 1) := by omega
      rw [harith]

/-- C8: starting from cursor 0 after setup, the k-th call of
`change_frequency` (k ≥ 1) applies `frequency_levels[(k-1) mod 9]`; in
particular calls 1..9 visit levels 0..8 in order, each exactly once, and
the 10th call applies level 0 again. -/
theorem c8_change_frequency_cycles (levels : List Int) (c : Int) (k : Nat) (hk : 1 ≤ k) :
    (change_frequency^[k] ⟨levels, 0, c⟩).current_set_frequency
      = levels.getD ((k - 1) % total_frequency_levels) 0 := by
  obtain ⟨j, rfl⟩ : ∃ j, k = j + 1 := ⟨k - 1, by omega⟩
  rw [change_frequency_iterate]
  simp

/-- C8 witness: the 10th call on a concrete 9-level list applies the
first level again. -/
theorem c8_change_frequency_cycles_witness :
    (1 : Nat) ≤ 10 ∧
    (change_frequency^[10] ⟨[9, 1, 5, 7, 3, 8, 6, 4, 2], 0, 0⟩).current_set_frequency
      = ([9, 1, 5, 7, 3, 8, 6, 4, 2] : List Int).getD ((10 - 1) % total_frequency_levels) 0 :=
  ⟨by decide, c8_change_frequency_cycles [9, 1, 5, 7, 3, 8, 6, 4, 2] 0 10 (by decide)⟩

def BASE_FREQ_PATH : String := "/sys/devices/system/cpu/cpu"

def SCALING_GOVERNOR : String := "/cpufreq/scaling_governor"

def SCALING_SETSPEED : String := "/cpufreq/scaling_setspeed"

/-- The per-cpu governor path built in `initial_setup` /
`restore_initial_state` (`cpuNumber` models `cpu_info[cpu].cpu_number`). -/
def scalingGovernorPath (cpuNumber : Nat) : String :=
  BASE_FREQ_PATH ++ toString cpuNumber ++ SCALING_GOVERNOR

/-- The per-cpu setspeed path built in `initial_setup` /
`restore_initial_state`. -/
def scalingSetspeedPath (cpuNumber : Nat) : String :=
  BASE_FREQ_PATH ++ toString cpuNumber ++ SCALING_SETSPEED

/-- The two saved-state vectors of `FrequencyManager`. -/
structure SavedState where
  per_cpu_initial_scaling_governor : List String
  per_cpu_initial_scaling_setspeed : List String

/-- The state-capturing loop of `FrequencyManager::initial_setup`: for
every cpu `0 ≤ cpu < num_cpus()` push the first line of the cpu's
governor file, then of its setspeed file (`readF` models `read_file`,
which exits the process on failure, so in any completed setup it returns
the file's content; the subsequent `"userspace"` governor write does not
affect the values already captured). -/
def initial_setup_capture (numCpus : Nat) (cpuNumber : Nat → Nat)
    (readF : String → String) : SavedState :=
  { per_cpu_initial_scaling_governor :=
      (List.range numCpus).map (fun cpu => readF (scalingGovernorPath (cpuNumber cpu))),
    per_cpu_initial_scaling_setspeed :=
      (List.range numCpus).map (fun cpu => readF (scalingSetspeedPath (cpuNumber cpu))) }

/-- `FrequencyManager::restore_initial_state` as its ordered trace of
`write_file(path, value)` calls: for every cpu, first the saved governor,
then the saved setspeed (a failing write exits the process; the trace
lists the writes as issued). -/
def restore_initial_state (numCpus : Nat) (cpuNumber : Nat → Nat)
    (st : SavedState) : List (String × String) :=
  (List.range numCpus).flatMap (fun cpu =>
    [(scalingGovernorPath (cpuNumber cpu),
        st.per_cpu_initial_scaling_governor.getD cpu ""),
     (scalingSetspeedPath (cpuNumber cpu),
        st.per_cpu_initial_scaling_setspeed.getD cpu "")])

theorem getD_map_range {α : Type} (n i : Nat) (f : Nat → α) (d : α) (h : i < n) :
    ((List.range n).map f).getD i d = f i := by
  rw [List.getD_eq_getElem?_getD, List.getElem?_map, List.getElem?_range h]
  rfl

theorem flatMap_congr {α β : Type} {l : List α} {f g : α → List β}
    (h : ∀ a ∈ l, f a = g a) : l.flatMap f = l.flatMap g := by
  induction l with
  | nil => rfl
  | cons a l ih =>
      simp only [List.flatMap_cons]
      rw [h a (List.mem_cons_self a l), ih (fun b hb => h b (List.mem_cons_of_mem a hb))]

/-- C9: for every state produced by `initial_setup` (over any core count,
core numbering and file contents), `restore_initial_state` issues exactly
the captured governor string and then the captured setpoint string of
each core, per core in capture order, governor before setpoint. -/
theorem c9_restore_writes_captured (numCpus : Nat) (cpuNumber : Nat → Nat)
    (readF : String → String) :
    restore_initial_state numCpus cpuNumber (initial_setup_capture numCpus cpuNumber readF)
      = (List.range numCpus).flatMap (fun cpu =>
          [(scalingGovernorPath (cpuNumber cpu), readF (scalingGovernorPath (cpuNumber cpu))),
           (scalingSetspeedPath (cpuNumber cpu), readF (scalingSetspeedPath (cpuNumber cpu)))]) := by
  refine flatMap_congr (fun cpu hcpu => ?_)
  have hlt : cpu < numCpus := List.mem_range.1 hcpu
  rw [initial_setup_capture]
  simp only
  rw [getD_map_range _ _ _ _ hlt, getD_map_range _ _ _ _ hlt]

/-- One `fscanf(file, "%s", buf)` call of `check_if_userspace_present`,
over the whitespace-separated tokens remaining in the file: it fills the
buffer with the next token and returns 1, or returns `EOF` (-1) leaving
the buffer untouched when the input is exhausted. -/
def fscanfToken (buf : String) (rest : List String) : Int × String × List String :=
  match rest with
  | [] => (-1, buf, [])
  | t :: ts => (1, t, ts)

/-- Observable outcome of `check_if_userspace_present`'s loop under a
given amount of fuel. -/
inductive UserspaceScan where
  | found
  | aborted
  | running (buf : String) (rest : List String)
deriving DecidableEq

/-- `FrequencyManager::check_if_userspace_present`'s loop
`while (fscanf(file, "%s", read_file)) { if (strcmp(read_file, "userspace") == 0) return; }`
followed by `fprintf(stderr, ...); exit(EXIT_FAILURE)`, with explicit
fuel.  The loop condition is the raw `fscanf` return value, so the loop
exits (reaching the abort) only when that value is 0; `buf` is the
current contents of the `read_file` buffer (indeterminate on entry),
`rest` the tokens not yet consumed. -/
def check_if_userspace_present : Nat → String → List String → UserspaceScan
  | 0, buf, rest => .running buf rest
  | f + 1, buf, rest =>
      let (r, buf2, rest2) := fscanfToken buf rest
      if r = 0 then .aborted
      else if buf2 = "userspace" then .found
      else check_if_userspace_present f buf2 rest2

/-- C6 (code refutation): the loop's abort path is unreachable — at end
of input `fscanf` returns `EOF` (-1), which is truthy, so the `while`
condition never becomes 0 and the function never reaches the
error-print-and-exit statement; on a governors file lacking
`"userspace"` it fails to terminate instead of aborting.  The positive
half of the claim does hold: when `"userspace"` is the next token the
function returns normally. -/
theorem c6_userspace_abort_unreachable :
    (∀ (f : Nat) (buf : String) (toks : List String),
        check_if_userspace_present f buf toks ≠ .aborted)
  ∧ (∀ f : Nat,
        check_if_userspace_present f "" ["performance", "powersave"] ≠ .found)
  ∧ (∀ buf : String, check_if_userspace_present 1 buf ["userspace"] = .found) := by
  have never_abort : ∀ (f : Nat) (buf : String) (toks : List String),
      check_if_userspace_present f buf toks ≠ .aborted := by
    intro f
    induction f with
    | zero => intro buf toks h; exact UserspaceScan.noConfusion h
    | succ f ih =>
        intro buf toks
        match toks with
        | [] =>
            rw [check_if_userspace_present]
            by_cases hb : buf = "userspace" <;> simp [fscanfToken, hb] <;> exact ih buf []
        | t :: ts =>
            rw [check_if_userspace_present]
            by_cases hb : t = "userspace" <;> simp [fscanfToken, hb] <;> exact ih t ts
  have never_found : ∀ f : Nat,
      check_if_userspace_present f "" ["performance", "powersave"] ≠ .found := by
    have tail : ∀ f : Nat,
        check_if_userspace_present f "powersave" [] ≠ .found := by
      intro f
      induction f with
      | zero => intro h; exact UserspaceScan.noConfusion h
      | succ f ih => rw [check_if_userspace_present]; simpa [fscanfToken] using ih
    intro f
    match f with
    | 0 => intro h; exact UserspaceScan.noConfusion h
    | 1 => intro h; exact UserspaceScan.noConfusion h
    | f + 2 =>
        rw [check_if_userspace_present]
        simp only [fscanfToken]
        rw [if_neg (by decide), if_neg (by decide), check_if_userspace_present]
        simpa [fscanfToken] using tail f
  exact ⟨never_abort, never_found, fun buf => by
    rw [check_if_userspace_present]; simp [fscanfToken]⟩

end FrequencyManager

namespace Ifs

/-- `#define DEFAULT_TEST_ID 1` -/
def DEFAULT_TEST_ID : Int := 1

/-- `#define IFS_SW_TIMEOUT 0xFD` -/
def IFS_SW_TIMEOUT : Nat := 0xFD

/-- `#define IFS_SW_PARTIAL_COMPLETION 0xFE` -/
def IFS_SW_PARTIAL_COMPLETION : Nat := 0xFE

/-- `is_result_code_skip` (ifs.c): the switch returning true exactly for
the two driver-populated inconclusive codes. -/
def is_result_code_skip (code : Nat) : Bool :=
  code == IFS_SW_TIMEOUT || code == IFS_SW_PARTIAL_COMPLETION

/-- `memcmp(buf, lit, strlen(lit)) == 0` for a string literal `lit`
against a NUL-terminated text buffer, i.e. "buf starts with lit".  When
the buffer's text is shorter than the literal the comparison meets the
buffer's NUL terminator, which differs from every literal character, so
it is unequal — modelled by returning false when the buffer list runs
out. -/
def memcmpLit : List Char → List Char → Bool
  | [], _ => true
  | _ :: _, [] => false
  | a :: as, b :: bs => a == b && memcmpLit as bs

/-- C `isspace` characters, as skipped by `strtoul` / `sscanf`. -/
def isSpaceChar (c : Char) : Bool :=
  c == ' ' || c == '\t' || c == '\n' || c == '\x0b' || c == '\x0c' || c == '\r'

/-- Value of a hexadecimal digit character, if it is one. -/
def hexDigitVal? (c : Char) : Option Nat :=
  if '0' ≤ c ∧ c ≤ '9' then some (c.toNat - 48)
  else if 'a' ≤ c ∧ c ≤ 'f' then some (c.toNat - 87)
  else if 'A' ≤ c ∧ c ≤ 'F' then some (c.toNat - 55)
  else none

/-- Value of a digit character in the given base, if valid. -/
def digitVal? (base : Nat) (c : Char) : Option Nat :=
  match hexDigitVal? c with
  | some v => if v < base then some v else none
  | none => none

/-- Accumulate the leading run of valid digits (strtoul stops at the
first non-digit and ignores the rest). -/
def takeDigits (base : Nat) : List Char → Nat → Nat
  | [], acc => acc
  | c :: cs, acc =>
      match digitVal? base c with
      | some v => takeDigits base cs (acc * base + v)
      | none => acc

/-- The sign and magnitude recognised by `strtoul(s, NULL, 0)`: optional
whitespace, optional sign, then base auto-detection — a `0x`/`0X` prefix
followed by a hex digit selects base 16, a remaining leading `0` selects
base 8, anything else base 10; no valid digit yields 0. -/
def strtoulParse (cs : List Char) : Bool × Nat :=
  let cs1 := cs.dropWhile isSpaceChar
  let signSplit : Bool × List Char :=
    match cs1 with
    | '-' :: rest => (true, rest)
    | '+' :: rest => (false, rest)
    | _ => (false, cs1)
  let neg := signSplit.1
  match signSplit.2 with
  | '0' :: c :: rest =>
      if c == 'x' || c == 'X' then
        match rest with
        | d :: _ => if (hexDigitVal? d).isSome then (neg, takeDigits 16 rest 0)
                    else (neg, 0)
        | [] => (neg, 0)
      else (neg, takeDigits 8 ('0' :: c :: rest) 0)
  | other => (neg, takeDigits 10 other 0)

/-- `ULONG_MAX` on the 64-bit targets this test is built for. -/
def ULONG_MAX : Nat := 2 ^ 64 - 1

/-- `strtoul(current_buf, NULL, 0)`: the returned `unsigned long` value
and whether this call sets `errno` to `ERANGE` (out-of-range magnitude
clamps to `ULONG_MAX`; a negative in-range subject wraps modulo 2^64;
`errno` is assumed not to hold a stale `ERANGE`). -/
def strtoul0 (cs : List Char) : Nat × Bool :=
  let p := strtoulParse cs
  if p.2 > ULONG_MAX then (ULONG_MAX, true)
  else if p.1 then ((2 ^ 64 - p.2 % 2 ^ 64) % 2 ^ 64, false)
  else (p.2, false)

/-- The C cast `(int) v` of an `unsigned long` value: reduce modulo 2^32
and reinterpret as a signed 32-bit value. -/
def castToInt (v : Nat) : Int :=
  if v % 2 ^ 32 < 2 ^ 31 then ((v % 2 ^ 32 : Nat) : Int)
  else ((v % 2 ^ 32 : Nat) : Int) - 2 ^ 32

/-- Lowercase hexadecimal digit character. -/
def hexDigitChar (n : Nat) : Char :=
  if n < 10 then Char.ofNat (48 + n) else Char.ofNat (87 + n)

/-- Helper for the hexadecimal expansion: structural recursion on a fuel
bound (any `fuel ≥ n` suffices, see `toHexCharsAux_spec`). -/
def toHexCharsAux : Nat → Nat → List Char → List Char
  | 0, n, acc => hexDigitChar (n % 16) :: acc
  | fuel + 1, n, acc =>
      if n < 16 then hexDigitChar n :: acc
      else toHexCharsAux fuel (n / 16) (hexDigitChar (n % 16) :: acc)

/-- Hexadecimal digit expansion of a natural number (no leading zeros,
`[0]` for 0). -/
def toHexChars (n : Nat) : List Char := toHexCharsAux n n []

theorem toHexCharsAux_spec : ∀ (n : Nat), ∀ (fuel : Nat) (acc : List Char), n ≤ fuel →
    toHexCharsAux fuel n acc = toHexChars n ++ acc := by
  intro n
  induction n using Nat.strong_induction_on with
  | _ n ih =>
    intro fuel acc hfuel
    by_cases h : n < 16
    · match fuel with
      | 0 =>
          have hn0 : n = 0 := by omega
          subst hn0
          rfl
      | f + 1 =>
          rw [toHexCharsAux, if_pos h]
          match n with
          | 0 => rfl
          | m + 1 => rw [toHexChars, toHexCharsAux.eq_2, if_pos h]; rfl
    · match fuel with
      | 0 => omega
      | f + 1 =>
          rw [toHexCharsAux, if_neg h]
          have hdiv : n / 16 < n := Nat.div_lt_self (by omega) (by omega)
          rw [ih (n / 16) hdiv f _ (by omega)]
          obtain ⟨m, rfl⟩ : ∃ m, n = m + 1 := ⟨n - 1, by omega⟩
          conv_rhs => rw [toHexChars, toHexCharsAux.eq_2]
          rw [if_neg h, ih ((m + 1) / 16) hdiv m _ (by omega), List.append_assoc]
          rfl

/-- The defining recurrence of `toHexChars`. -/
theorem toHexChars_eq (n : Nat) :
    toHexChars n = if n < 16 then [hexDigitChar n]
                   else toHexChars (n / 16) ++ [hexDigitChar (n % 16)] := by
  by_cases h : n < 16
  · rw [if_pos h, toHexChars]
    match n with
    | 0 => rfl
    | m + 1 => rw [toHexCharsAux.eq_2, if_pos h]
  · rw [if_neg h, toHexChars]
    obtain ⟨m, rfl⟩ : ∃ m, n = m + 1 := ⟨n - 1, by omega⟩
    rw [toHexCharsAux.eq_2, if_neg h,
        toHexCharsAux_spec ((m + 1) / 16) m _ (by omega)]

/-- `sprintf(buf, "%#x", v)` for an `int` argument: `%x` consumes the
value as a 32-bit unsigned; the `#` flag prepends `0x` except that the
value 0 prints as plain `0`; digits are lowercase. -/
def formatHashHex (v : Int) : List Char :=
  let u : Nat := (v % (2 ^ 32 : Int)).toNat
  if u = 0 then ['0'] else '0' :: 'x' :: toHexChars u

/-- Per-call outcome environment for `write_file(dfd, "current_batch", ·)`. -/
inductive Errno where
  | enoent
  | other
deriving DecidableEq

inductive WriteOutcome where
  | success
  | failure (e : Errno)
deriving DecidableEq

/-- Result of `load_test_file`: its boolean return value, and the values
passed to the `write_file(dfd, "current_batch", ·)` calls it attempted,
in order. -/
structure LoadOutcome where
  ok : Bool
  writes : List (List Char)
deriving DecidableEq

/-- Lines 96-136 of `load_test_file`: decide the next test id, or `none`
when init must fail before any write (prior "fail" status without
`enforce_run == 1`, or a batch counter whose `strtoul` value sets
`ERANGE` and casts to a negative `int`).  `statusBuf` and `currentBuf`
are the buffer contents after reading `status` and `current_batch`;
`enforce_run` and `test_file` are the knob values (default -1). -/
def load_choose_next (statusBuf currentBuf : List Char)
    (enforce_run test_file : Int) : Option Int :=
  if memcmpLit "fail".toList statusBuf = true ∧ enforce_run ≠ 1 then none
  else if test_file = -1 then
    if memcmpLit "none".toList currentBuf = true then some DEFAULT_TEST_ID
    else if castToInt (strtoul0 currentBuf).1 < 0 ∧ (strtoul0 currentBuf).2 = true then none
    else if memcmpLit "untested".toList statusBuf = true then
      some (castToInt (strtoul0 currentBuf).1)
    else some (castToInt (strtoul0 currentBuf).1 + 1)
  else some test_file

/-- Lines 138-157 of `load_test_file`: write the chosen id
(`sprintf(ifs_info->image_id, "%#x", next_test)`); when that write fails
with `ENOENT` (next blob absent), fall back once to writing the default
id; any other failure, or a failing fallback, returns false.  `w1` and
`w2` are the outcomes of the first and (if attempted) fallback write. -/
def load_write_phase (id : List Char) (w1 w2 : WriteOutcome) : LoadOutcome :=
  match w1 with
  | .success => ⟨true, [id]⟩
  | .failure e =>
      if e = .enoent then
        match w2 with
        | .success => ⟨true, [id, formatHashHex DEFAULT_TEST_ID]⟩
        | .failure _ => ⟨false, [id, formatHashHex DEFAULT_TEST_ID]⟩
      else ⟨false, [id]⟩

/-- `load_test_file` (ifs.c lines 96-157), composed from its
id-selection phase and its write phase. -/
def load_test_file (statusBuf currentBuf : List Char) (enforce_run test_file : Int)
    (w1 w2 : WriteOutcome) : LoadOutcome :=
  match load_choose_next statusBuf currentBuf enforce_run test_file with
  | none => ⟨false, []⟩
  | some next_test => load_write_phase (formatHashHex next_test) w1 w2

theorem hexDigitVal?_hexDigitChar : ∀ d < 16, hexDigitVal? (hexDigitChar d) = some d := by
  decide

theorem digitVal?_hexDigitChar {d : Nat} (h : d < 16) :
    digitVal? 16 (hexDigitChar d) = some d := by
  rw [digitVal?, hexDigitVal?_hexDigitChar d h]
  simp [h]

theorem toHexChars_valid (n : Nat) : ∀ c ∈ toHexChars n, (digitVal? 16 c).isSome := by
  induction n using Nat.strong_induction_on with
  | _ n ih =>
    by_cases h : n < 16
    · rw [toHexChars_eq, if_pos h]
      intro c hc
      rw [List.mem_singleton] at hc
      subst hc
      rw [digitVal?_hexDigitChar h]
      rfl
    · rw [toHexChars_eq, if_neg h]
      intro c hc
      rcases List.mem_append.1 hc with hc | hc
      · exact ih (n / 16) (Nat.div_lt_self (by omega) (by omega)) c hc
      · rw [List.mem_singleton] at hc
        subst hc
        rw [digitVal?_hexDigitChar (Nat.mod_lt n (by omega))]
        rfl

theorem toHexChars_ne_nil (n : Nat) : toHexChars n ≠ [] := by
  rw [toHexChars_eq]
  by_cases h : n < 16
  · rw [if_pos h]; simp
  · rw [if_neg h]; simp

theorem takeDigits_append (l1 l2 : List Char) :
    ∀ acc, (∀ c ∈ l1, (digitVal? 16 c).isSome) →
      takeDigits 16 (l1 ++ l2) acc = takeDigits 16 l2 (takeDigits 16 l1 acc) := by
  induction l1 with
  | nil => intro acc _; rfl
  | cons c cs ih =>
      intro acc h
      obtain ⟨v, hv⟩ := Option.isSome_iff_exists.1 (h c (List.mem_cons_self c cs))
      simp only [List.cons_append, takeDigits, hv]
      exact ih _ (fun d hd => h d (List.mem_cons_of_mem c hd))

theorem takeDigits_toHexChars (n : Nat) :
    ∀ acc, takeDigits 16 (toHexChars n) acc = acc * 16 ^ (toHexChars n).length + n := by
  induction n using Nat.strong_induction_on with
  | _ n ih =>
    intro acc
    by_cases h : n < 16
    · rw [toHexChars_eq, if_pos h]
      simp only [takeDigits, digitVal?_hexDigitChar h, List.length_singleton, pow_one]
    · rw [toHexChars_eq, if_neg h]
      rw [takeDigits_append _ _ acc (toHexChars_valid (n / 16))]
      have hdiv : n / 16 < n := Nat.div_lt_self (by omega) (by omega)
      rw [ih (n / 16) hdiv acc]
      simp only [takeDigits, digitVal?_hexDigitChar (Nat.mod_lt n (by omega)),
        List.length_append, List.length_singleton]
      have hdm : n / 16 * 16 + n % 16 = n := by omega
      calc (acc * 16 ^ (toHexChars (n / 16)).length + n / 16) * 16 + n % 16
          = acc * (16 ^ (toHexChars (n / 16)).length * 16) + (n / 16 * 16 + n % 16) := by ring
        _ = acc * 16 ^ ((toHexChars (n / 16)).length + 1) + n := by rw [pow_succ, hdm]

theorem strtoulParse_hex (d : Char) (ds : List Char) :
    strtoulParse ('0' :: 'x' :: d :: ds)
      = (if (hexDigitVal? d).isSome then (false, takeDigits 16 (d :: ds) 0)
         else (false, 0)) := rfl

/-- For a nonzero 32-bit value, `%#x` prints `0x` followed by the hex
digits. -/
theorem formatHashHex_pos {n : Nat} (h1 : 1 ≤ n) (h2 : n < 2 ^ 32) :
    formatHashHex (n : Int) = '0' :: 'x' :: toHexChars n := by
  have hmod : ((n : Int) % (2 ^ 32 : Int)) = (n : Int) :=
    Int.emod_eq_of_lt (by positivity) (by exact_mod_cast h2)
  rw [formatHashHex]
  simp only [hmod, Int.toNat_natCast]
  rw [if_neg (by omega)]

/-- `strtoul(·, NULL, 0)` round trip on the hex identifiers the code
itself prints: parsing `0x` followed by the hex digits of `n` recovers
`n`, without `ERANGE`. -/
theorem strtoul0_hex (n : Nat) (h2 : n < 2 ^ 64) :
    strtoul0 ('0' :: 'x' :: toHexChars n) = (n, false) := by
  obtain ⟨d, ds, hds⟩ : ∃ d ds, toHexChars n = d :: ds := by
    cases hT : toHexChars n with
    | nil => exact absurd hT (toHexChars_ne_nil n)
    | cons d ds => exact ⟨d, ds, rfl⟩
  have hdval : (hexDigitVal? d).isSome := by
    have := toHexChars_valid n d (by rw [hds]; exact List.mem_cons_self d ds)
    rw [digitVal?] at this
    cases hH : hexDigitVal? d with
    | none => rw [hH] at this; exact absurd this (by simp)
    | some v => rfl
  have hval : takeDigits 16 (toHexChars n) 0 = n := by
    rw [takeDigits_toHexChars]
    simp
  have hparse : strtoulParse ('0' :: 'x' :: toHexChars n) = (false, n) := by
    rw [hds, strtoulParse_hex, if_pos hdval, ← hds, hval]
  rw [strtoul0, hparse]
  rw [if_neg (by simp only [ULONG_MAX]; omega)]
  rfl

theorem castToInt_small {v : Nat} (h : v < 2 ^ 31) : castToInt v = (v : Int) := by
  have hm : v % 2 ^ 32 = v := Nat.mod_eq_of_lt (by omega)
  rw [castToInt, hm, if_pos h]

theorem memcmpLit_none_hex (rest : List Char) :
    memcmpLit "none".toList ('0' :: 'x' :: rest) = false := rfl

/-- C2: batch progression of `load_test_file` with no `test_file`
override (knob value -1): a prior counter of `"none"` leads to a write of
`"0x1"`; a prior counter printed from `n` with prior status `"untested"`
leads to a write of the same identifier; with a status that is neither
`"fail"` nor `"untested"` it leads to a write of the successor
identifier; and a prior `"fail"` status without `enforce_run == 1` makes
init report failure with no write at all. -/
theorem c2_load_test_file_progression (statusBuf : List Char) (n : Nat) (enforce : Int)
    (h1 : 1 ≤ n) (h2 : n + 1 < 2 ^ 31) :
    (memcmpLit "fail".toList statusBuf = false →
       load_test_file statusBuf "none".toList enforce (-1) .success .success
         = ⟨true, ["0x1".toList]⟩)
  ∧ (memcmpLit "fail".toList statusBuf = false →
     memcmpLit "untested".toList statusBuf = true →
       load_test_file statusBuf (formatHashHex (n : Int)) enforce (-1) .success .success
         = ⟨true, [formatHashHex (n : Int)]⟩)
  ∧ (memcmpLit "fail".toList statusBuf = false →
     memcmpLit "untested".toList statusBuf = false →
       load_test_file statusBuf (formatHashHex (n : Int)) enforce (-1) .success .success
         = ⟨true, [formatHashHex ((n : Int) + 1)]⟩)
  ∧ (∀ (currentBuf : List Char) (w1 w2 : WriteOutcome),
       memcmpLit "fail".toList statusBuf = true → enforce ≠ 1 →
       load_test_file statusBuf currentBuf enforce (-1) w1 w2 = ⟨false, []⟩) := by
  have hn32 : n < 2 ^ 32 := by omega
  have hfmt : formatHashHex (n : Int) = '0' :: 'x' :: toHexChars n :=
    formatHashHex_pos h1 hn32
  have hstr : strtoul0 ('0' :: 'x' :: toHexChars n) = (n, false) :=
    strtoul0_hex n (by omega)
  have hcast : castToInt n = (n : Int) := castToInt_small (by omega)
  refine ⟨?_, ?_, ?_, ?_⟩
  · intro hf
    rw [load_test_file, load_choose_next,
        if_neg (by rw [hf]; simp), if_pos rfl, if_pos (by decide)]
    rfl
  · intro hf hu
    rw [hfmt, load_test_file, load_choose_next,
        if_neg (by rw [hf]; simp), if_pos rfl, if_neg (by rw [memcmpLit_none_hex]; simp),
        if_neg (by rw [hstr]; simp), if_pos hu, hstr]
    show load_write_phase (formatHashHex (castToInt n)) .success .success
      = ⟨true, ['0' :: 'x' :: toHexChars n]⟩
    rw [hcast, hfmt]
    rfl
  · intro hf hu
    rw [hfmt, load_test_file, load_choose_next,
        if_neg (by rw [hf]; simp), if_pos rfl, if_neg (by rw [memcmpLit_none_hex]; simp),
        if_neg (by rw [hstr]; simp), if_neg (by rw [hu]; simp), hstr]
    show load_write_phase (formatHashHex (castToInt n + 1)) .success .success
      = ⟨true, [formatHashHex ((n : Int) + 1)]⟩
    rw [hcast]
    rfl
  · intro currentBuf w1 w2 hf he
    rw [load_test_file, load_choose_next, if_pos ⟨hf, he⟩]

/-- C2 witness: the four progression scenarios at prior counter value 5
(identifier `"0x5"`), default knobs and succeeding writes. -/
theorem c2_load_test_file_progression_witness :
    (memcmpLit "fail".toList "untested".toList = false
     ∧ memcmpLit "untested".toList "untested".toList = true
     ∧ memcmpLit "fail".toList "pass".toList = false
     ∧ memcmpLit "untested".toList "pass".toList = false
     ∧ memcmpLit "fail".toList "fail".toList = true
     ∧ (1 : Nat) ≤ 5 ∧ 5 + 1 < 2 ^ 31 ∧ ((-1 : Int) ≠ 1))
  ∧ load_test_file "untested".toList (formatHashHex 5) (-1) (-1) .success .success
      = ⟨true, [formatHashHex 5]⟩
  ∧ load_test_file "pass".toList (formatHashHex 5) (-1) (-1) .success .success
      = ⟨true, [formatHashHex (5 + 1)]⟩
  ∧ load_test_file "pass".toList "none".toList (-1) (-1) .success .success
      = ⟨true, ["0x1".toList]⟩
  ∧ load_test_file "fail".toList "0x5".toList (-1) (-1) .success .success
      = ⟨false, []⟩ :=
  ⟨⟨by decide, by decide, by decide, by decide, by decide, by decide, by decide, by decide⟩,
   (c2_load_test_file_progression "untested".toList 5 (-1) (by decide) (by decide)).2.1
     (by decide) (by decide),
   (c2_load_test_file_progression "pass".toList 5 (-1) (by decide) (by decide)).2.2.1
     (by decide) (by decide),
   (c2_load_test_file_progression "pass".toList 5 (-1) (by decide) (by decide)).1
     (by decide),
   (c2_load_test_file_progression "fail".toList 5 (-1) (by decide) (by decide)).2.2.2
     "0x5".toList .success .success (by decide) (by decide)⟩

/-- C5, counterexample: a prior batch counter that is not `"none"` and
not parseable as an unsigned integer (here `"garbage"`, which `strtoul`
maps to 0 without setting `ERANGE`) does NOT abort init: the code only
aborts when `errno == ERANGE` and the int cast is negative, so it
proceeds and writes the successor of 0, i.e. `"0x1"`. -/
theorem c5_unparseable_counterexample :
    load_test_file "pass".toList "garbage".toList (-1) (-1) .success .success
      = ⟨true, ["0x1".toList]⟩ := by decide

theorem load_write_phase_writes_ne_nil (id : List Char) (w1 w2 : WriteOutcome) :
    (load_write_phase id w1 w2).writes ≠ [] := by
  cases w1 with
  | success => simp [load_write_phase]
  | failure e => cases e <;> cases w2 <;> simp [load_write_phase]

/-- C5 (amended): with no explicit override, a prior status that is not
`"fail"`-refused, and a prior counter that is not `"none"`, init aborts
on the counter exactly when the `strtoul` conversion sets `ERANGE`
(out-of-range magnitude) and the returned value casts to a negative
`int`: in that case it returns false with no batch value written, and
for every other counter — including merely unparseable ones, which parse
as 0 without `ERANGE` — progression proceeds and a batch write is
attempted. -/
theorem c5_erange_aborts (statusBuf currentBuf : List Char) (w1 w2 : WriteOutcome)
    (hfail : memcmpLit "fail".toList statusBuf = false)
    (hnone : memcmpLit "none".toList currentBuf = false) :
    (load_choose_next statusBuf currentBuf (-1) (-1) = none
       ↔ (castToInt (strtoul0 currentBuf).1 < 0 ∧ (strtoul0 currentBuf).2 = true))
  ∧ ((castToInt (strtoul0 currentBuf).1 < 0 ∧ (strtoul0 currentBuf).2 = true) →
       load_test_file statusBuf currentBuf (-1) (-1) w1 w2 = ⟨false, []⟩)
  ∧ (¬ (castToInt (strtoul0 currentBuf).1 < 0 ∧ (strtoul0 currentBuf).2 = true) →
       (load_test_file statusBuf currentBuf (-1) (-1) w1 w2).writes ≠ []) := by
  have hgate : ¬ (memcmpLit "fail".toList statusBuf = true ∧ ((-1 : Int)) ≠ 1) := by
    rw [hfail]
    simp
  refine ⟨?_, ?_, ?_⟩
  · rw [load_choose_next, if_neg hgate, if_pos rfl, if_neg (by rw [hnone]; simp)]
    by_cases hc : castToInt (strtoul0 currentBuf).1 < 0 ∧ (strtoul0 currentBuf).2 = true
    · rw [if_pos hc]
      exact iff_of_true rfl hc
    · rw [if_neg hc]
      refine iff_of_false ?_ hc
      by_cases hu : memcmpLit "untested".toList statusBuf = true
      · rw [if_pos hu]
        simp
      · rw [if_neg hu]
        simp
  · intro hc
    rw [load_test_file, load_choose_next, if_neg hgate, if_pos rfl,
        if_neg (by rw [hnone]; simp), if_pos hc]
  · intro hc
    rw [load_test_file, load_choose_next, if_neg hgate, if_pos rfl,
        if_neg (by rw [hnone]; simp), if_neg hc]
    by_cases hu : memcmpLit "untested".toList statusBuf = true
    · rw [if_pos hu]
      exact load_write_phase_writes_ne_nil _ _ _
    · rw [if_neg hu]
      exact load_write_phase_writes_ne_nil _ _ _

/-- C5 witness: the amended statement with status `"pass"` at the
out-of-range counter `"18446744073709551616"` (2^64): `strtoul` clamps
to `ULONG_MAX` with `ERANGE`, and `(int) ULONG_MAX = -1 < 0`, so init
aborts with no write. -/
theorem c5_erange_aborts_witness :
    (memcmpLit "fail".toList "pass".toList = false
     ∧ memcmpLit "none".toList "18446744073709551616".toList = false
     ∧ castToInt (strtoul0 "18446744073709551616".toList).1 < 0
     ∧ (strtoul0 "18446744073709551616".toList).2 = true)
  ∧ load_test_file "pass".toList "18446744073709551616".toList (-1) (-1) .success .success
      = ⟨false, []⟩ :=
  ⟨⟨by decide, by decide, by decide, by decide⟩,
   (c5_erange_aborts "pass".toList "18446744073709551616".toList .success .success
      (by decide) (by decide)).2.1 ⟨by decide, by decide⟩⟩

/-- C7: when the write of the chosen batch identifier fails with
`ENOENT`, `load_test_file` falls back to writing the default identifier
`"0x1"` exactly once (the attempted-write trace has exactly those two
entries, with no second fallback), and the overall result is success
exactly when the fallback write succeeds; a non-`ENOENT` failure
triggers no fallback, and a successful first write writes only the
chosen identifier. -/
theorem c7_enoent_fallback_once (id : List Char) (w2 : WriteOutcome) :
    formatHashHex DEFAULT_TEST_ID = "0x1".toList
  ∧ (load_write_phase id (.failure .enoent) w2).writes = [id, "0x1".toList]
  ∧ ((load_write_phase id (.failure .enoent) w2).ok = true ↔ w2 = .success)
  ∧ load_write_phase id (.failure .other) w2 = ⟨false, [id]⟩
  ∧ load_write_phase id .success w2 = ⟨true, [id]⟩ := by
  cases w2 with
  | success => exact ⟨by decide, rfl, by simp [load_write_phase], rfl, rfl⟩
  | failure e => exact ⟨by decide, rfl, by simp [load_write_phase], rfl, rfl⟩

/-- `sscanf(result, "%llx", &code)`: skip whitespace, optional sign,
optional `0x`/`0X` prefix (when followed by a hex digit), then at least
one hex digit; `some code` models a return value of 1, `none` any other
return value.  `unsigned long long` wrap-around is modelled modulo
2^64. -/
def parseHexLLX (cs : List Char) : Option Nat :=
  match
    (match cs.dropWhile isSpaceChar with
     | '-' :: rest => (true, rest)
     | '+' :: rest => (false, rest)
     | other => (false, other)) with
  | (neg, afterSign) =>
    match
      (match afterSign with
       | '0' :: c :: rest =>
           if (c == 'x' || c == 'X') && (hexDigitVal? (rest.headD ' ')).isSome then rest
           else afterSign
       | _ => afterSign) with
    | subject =>
      match subject with
      | c :: _ =>
          if (hexDigitVal? c).isSome then
            some (if neg then (2 ^ 64 - takeDigits 16 subject 0 % 2 ^ 64) % 2 ^ 64
                  else takeDigits 16 subject 0 % 2 ^ 64)
          else none
      | [] => none

/-- One directory entry of the `readdir` loop of `scan_run`, together
with the outcomes of the per-instance OS interactions: whether
`ent->d_type == DT_DIR`, whether the `openat` of the instance directory
succeeds, whether the `write_file(ifsfd, "run_test", my_cpu)` start
succeeds (blocking until the scan finished), and the contents returned
by the `status` and `details` reads (`none` models a failed read,
`read_file` returning a negative value). -/
structure IfsEntry where
  d_name : List Char
  isDir : Bool
  openOk : Bool
  runWriteOk : Bool
  statusRead : Option (List Char)
  detailsRead : Option (List Char)
deriving DecidableEq

/-- Final observable state of the `scan_run` loop: the
`any_test_succeded` flag and whether `log_error` was called (the
framework records a test failure when it is). -/
structure ScanState where
  any_test_succeded : Bool
  errorLogged : Bool
deriving DecidableEq

/-- The `readdir` loop of `scan_run` (ifs.c lines 249-297) over the
directory entries in enumeration order, with `acc` the current
`any_test_succeded` flag: entries that are not directories named
`intel_ifs_*`, or whose open / start / status read fails, are skipped
with the loop continuing; a status starting with `"fail"` reads
`details` — an unreadable or unparseable details value or a
non-inconclusive code calls `log_error` and breaks the loop, an
inconclusive code (`is_result_code_skip`) continues; a status starting
with `"pass"` sets the flag and continues. -/
def scanEntries : List IfsEntry → Bool → ScanState
  | [], acc => ⟨acc, false⟩
  | e :: rest, acc =>
      if ¬ (e.isDir = true ∧ memcmpLit "intel_ifs_".toList e.d_name = true) then
        scanEntries rest acc
      else if e.openOk = false then scanEntries rest acc
      else if e.runWriteOk = false then scanEntries rest acc
      else if e.statusRead.isSome = false then scanEntries rest acc
      else if memcmpLit "fail".toList (e.statusRead.getD []) = true then
        if e.detailsRead.isSome = false then ⟨acc, true⟩
        else if (parseHexLLX (e.detailsRead.getD [])).isSome = true
            ∧ is_result_code_skip ((parseHexLLX (e.detailsRead.getD [])).getD 0) = true then
          scanEntries rest acc
        else ⟨acc, true⟩
      else if memcmpLit "pass".toList (e.statusRead.getD []) = true then scanEntries rest true
      else scanEntries rest acc

/-- The instance-scanning part of `scan_run` for an eligible (thread 0)
cpu: run the loop with `any_test_succeded = false`; the function then
returns `EXIT_SUCCESS` if the flag is set and `EXIT_SKIP` otherwise. -/
def scan_run (entries : List IfsEntry) : ScanState := scanEntries entries false

inductive Classification where
  | success
  | skip
  | failure
deriving DecidableEq

/-- Modelled from the spec: the framework-level classification of one
per-core run.  The logging/classification sink (`log_error` in
`sandstone.h`, outside this repository's sources) records a confirmed
failure for the unit when an error-level log was emitted; otherwise the
run classifies by `scan_run`'s return value, `EXIT_SUCCESS` → success
and `EXIT_SKIP` → skip. -/
def classification (s : ScanState) : Classification :=
  if s.errorLogged then .failure
  else if s.any_test_succeded then .success
  else .skip

/-- An entry the loop exercises all the way to reading its status:
directory named `intel_ifs_*`, successful open, successful start,
successful status read. -/
def entryExercised (e : IfsEntry) : Bool :=
  e.isDir && memcmpLit "intel_ifs_".toList e.d_name && e.openOk && e.runWriteOk
    && e.statusRead.isSome

/-- The status text of an exercised entry. -/
def entryStatus (e : IfsEntry) : List Char := e.statusRead.getD []

/-- The details text of an entry. -/
def entryDetails (e : IfsEntry) : List Char := e.detailsRead.getD []

/-- A genuine (non-inconclusive) per-instance failure: status starts
with `"fail"` and the details value is unreadable, unparseable, or a
code other than the inconclusive ones. -/
def entryGenuineFail (e : IfsEntry) : Bool :=
  entryExercised e && memcmpLit "fail".toList (entryStatus e) &&
    !(e.detailsRead.isSome && (parseHexLLX (entryDetails e)).isSome
        && is_result_code_skip ((parseHexLLX (entryDetails e)).getD 0))

/-- A passing instance: exercised, status does not start with `"fail"`
and starts with `"pass"`. -/
def entryPassed (e : IfsEntry) : Bool :=
  entryExercised e && !memcmpLit "fail".toList (entryStatus e) &&
    memcmpLit "pass".toList (entryStatus e)

theorem entryExercised_false_of (e : IfsEntry)
    (h : e.isDir = false ∨ memcmpLit "intel_ifs_".toList e.d_name = false
       ∨ e.openOk = false ∨ e.runWriteOk = false ∨ e.statusRead.isSome = false) :
    entryExercised e = false := by
  rw [entryExercised]
  rcases h with h | h | h | h | h <;> rw [h] <;> simp

theorem entryGenuineFail_false_of_ex (e : IfsEntry) (h : entryExercised e = false) :
    entryGenuineFail e = false := by
  rw [entryGenuineFail, h]
  rfl

theorem entryPassed_false_of_ex (e : IfsEntry) (h : entryExercised e = false) :
    entryPassed e = false := by
  rw [entryPassed, h]
  rfl

theorem entryExercised_true_of (e : IfsEntry)
    (hdir : e.isDir = true) (hname : memcmpLit "intel_ifs_".toList e.d_name = true)
    (hopen : e.openOk = true) (hrun : e.runWriteOk = true)
    (hst : e.statusRead.isSome = true) :
    entryExercised e = true := by
  rw [entryExercised, hdir, hname, hopen, hrun, hst]
  rfl

theorem scanEntries_spec : ∀ (l : List IfsEntry) (acc : Bool),
    (scanEntries l acc).errorLogged = l.any entryGenuineFail
  ∧ (l.any entryGenuineFail = false →
      (scanEntries l acc).any_test_succeded = (acc || l.any entryPassed)) := by
  intro l
  induction l with
  | nil =>
      intro acc
      exact ⟨rfl, fun _ => by rw [scanEntries]; simp⟩
  | cons e rest ih =>
      intro acc
      have skipStep : entryGenuineFail e = false → entryPassed e = false →
          ∀ b : Bool,
          ((scanEntries rest b).errorLogged = (e :: rest).any entryGenuineFail
        ∧ ((e :: rest).any entryGenuineFail = false →
            (scanEntries rest b).any_test_succeded = (b || (e :: rest).any entryPassed))) := by
        intro hg hp b
        refine ⟨?_, ?_⟩
        · rw [(ih b).1, List.any_cons, hg, Bool.false_or]
        · intro hnone
          rw [List.any_cons, hg, Bool.false_or] at hnone
          rw [(ih b).2 hnone, List.any_cons, hp, Bool.false_or]
      by_cases h1 : e.isDir = true ∧ memcmpLit "intel_ifs_".toList e.d_name = true
      case neg =>
        have hex : entryExercised e = false := by
          rcases not_and_or.1 h1 with h | h
          · exact entryExercised_false_of e (Or.inl (by simpa using h))
          · exact entryExercised_false_of e (Or.inr (Or.inl (by simpa using h)))
        rw [scanEntries, if_pos h1]
        exact skipStep (entryGenuineFail_false_of_ex e hex) (entryPassed_false_of_ex e hex) acc
      case pos =>
      by_cases h2 : e.openOk = false
      case pos =>
        have hex := entryExercised_false_of e (Or.inr (Or.inr (Or.inl h2)))
        rw [scanEntries, if_neg (not_not_intro h1), if_pos h2]
        exact skipStep (entryGenuineFail_false_of_ex e hex) (entryPassed_false_of_ex e hex) acc
      case neg =>
      by_cases h3 : e.runWriteOk = false
      case pos =>
        have hex := entryExercised_false_of e (Or.inr (Or.inr (Or.inr (Or.inl h3))))
        rw [scanEntries, if_neg (not_not_intro h1), if_neg h2, if_pos h3]
        exact skipStep (entryGenuineFail_false_of_ex e hex) (entryPassed_false_of_ex e hex) acc
      case neg =>
      by_cases h4 : e.statusRead.isSome = false
      case pos =>
        have hex := entryExercised_false_of e (Or.inr (Or.inr (Or.inr (Or.inr h4))))
        rw [scanEntries, if_neg (not_not_intro h1), if_neg h2, if_neg h3, if_pos h4]
        exact skipStep (entryGenuineFail_false_of_ex e hex) (entryPassed_false_of_ex e hex) acc
      case neg =>
      have h2' : e.openOk = true := by
        cases hb : e.openOk with
        | true => rfl
        | false => exact absurd hb h2
      have h3' : e.runWriteOk = true := by
        cases hb : e.runWriteOk with
        | true => rfl
        | false => exact absurd hb h3
      have h4' : e.statusRead.isSome = true := by
        cases hb : e.statusRead.isSome with
        | true => rfl
        | false => exact absurd hb h4
      have hex : entryExercised e = true :=
        entryExercised_true_of e h1.1 h1.2 h2' h3' h4'
      by_cases h5 : memcmpLit "fail".toList (e.statusRead.getD []) = true
      case pos =>
        by_cases h6 : e.detailsRead.isSome = false
        case pos =>
          have hg : entryGenuineFail e = true := by
            rw [entryGenuineFail, entryStatus, hex, h5, h6]
            rfl
          rw [scanEntries, if_neg (not_not_intro h1), if_neg h2, if_neg h3, if_neg h4,
              if_pos h5, if_pos h6]
          refine ⟨?_, ?_⟩
          · show true = (e :: rest).any entryGenuineFail
            rw [List.any_cons, hg]
            rfl
          · intro hnone
            rw [List.any_cons, hg] at hnone
            simp at hnone
        case neg =>
          have h6' : e.detailsRead.isSome = true := by
            cases hb : e.detailsRead.isSome with
            | true => rfl
            | false => exact absurd hb h6
          by_cases h7 : (parseHexLLX (e.detailsRead.getD [])).isSome = true
              ∧ is_result_code_skip ((parseHexLLX (e.detailsRead.getD [])).getD 0) = true
          case pos =>
            have hg : entryGenuineFail e = false := by
              rw [entryGenuineFail, entryStatus, entryDetails, hex, h5, h6', h7.1, h7.2]
              rfl
            have hp : entryPassed e = false := by
              rw [entryPassed, entryStatus, hex, h5]
              rfl
            rw [scanEntries, if_neg (not_not_intro h1), if_neg h2, if_neg h3, if_neg h4,
                if_pos h5, if_neg h6, if_pos h7]
            exact skipStep hg hp acc
          case neg =>
            have hps : ((parseHexLLX (entryDetails e)).isSome
                && is_result_code_skip ((parseHexLLX (entryDetails e)).getD 0)) = false := by
              rw [entryDetails]
              cases hq : (parseHexLLX (e.detailsRead.getD [])).isSome with
              | false => rfl
              | true =>
                  cases hr : is_result_code_skip ((parseHexLLX (e.detailsRead.getD [])).getD 0) with
                  | false => rfl
                  | true => exact absurd ⟨hq, hr⟩ h7
            have hg : entryGenuineFail e = true := by
              rw [entryGenuineFail, entryStatus, hex, h5, h6']
              simp only [Bool.true_and]
              rw [hps]
              rfl
            rw [scanEntries, if_neg (not_not_intro h1), if_neg h2, if_neg h3, if_neg h4,
                if_pos h5, if_neg h6, if_neg h7]
            refine ⟨?_, ?_⟩
            · show true = (e :: rest).any entryGenuineFail
              rw [List.any_cons, hg]
              rfl
            · intro hnone
              rw [List.any_cons, hg] at hnone
              simp at hnone
      case neg =>
        have h5' : memcmpLit "fail".toList (e.statusRead.getD []) = false := by simpa using h5
        have hg : entryGenuineFail e = false := by
          rw [entryGenuineFail, entryStatus, h5']
          simp
        by_cases h8 : memcmpLit "pass".toList (e.statusRead.getD []) = true
        case pos =>
          have hp : entryPassed e = true := by
            rw [entryPassed, entryStatus, hex, h5', h8]
            rfl
          rw [scanEntries, if_neg (not_not_intro h1), if_neg h2, if_neg h3, if_neg h4,
              if_neg h5, if_pos h8]
          refine ⟨?_, ?_⟩
          · rw [(ih true).1, List.any_cons, hg, Bool.false_or]
          · intro hnone
            rw [List.any_cons, hg, Bool.false_or] at hnone
            rw [(ih true).2 hnone, List.any_cons, hp]
            simp
        case neg =>
          have hp : entryPassed e = false := by
            rw [entryPassed, entryStatus,
                (by simpa using h8 : memcmpLit "pass".toList (e.statusRead.getD []) = false)]
            simp
          rw [scanEntries, if_neg (not_not_intro h1), if_neg h2, if_neg h3, if_neg h4,
              if_neg h5, if_neg h8]
          exact skipStep hg hp acc

/-- C3: classification of a per-core run of the scan driver over any
instance-directory listing and per-instance outcomes: failure exactly
when some instance is a genuine (non-inconclusive) failure; success
exactly when no instance is and at least one instance passed; skip
exactly when no instance is and none passed (which subsumes the case
where every instance open or start failed, and the case of an empty
listing). -/
theorem c3_scan_run_classification (entries : List IfsEntry) :
    (classification (scan_run entries) = .failure ↔ entries.any entryGenuineFail = true)
  ∧ (classification (scan_run entries) = .success ↔
      (entries.any entryGenuineFail = false ∧ entries.any entryPassed = true))
  ∧ (classification (scan_run entries) = .skip ↔
      (entries.any entryGenuineFail = false ∧ entries.any entryPassed = false)) := by
  have hspec := scanEntries_spec entries false
  cases hany : entries.any entryGenuineFail with
  | true =>
      have hc : classification (scan_run entries) = .failure := by
        rw [classification, scan_run, hspec.1, hany, if_pos rfl]
      rw [hc]
      exact ⟨iff_of_true rfl rfl,
        iff_of_false (by simp) (fun h => absurd h.1 (by simp)),
        iff_of_false (by simp) (fun h => absurd h.1 (by simp))⟩
  | false =>
      have herr : (scanEntries entries false).errorLogged = false := by
        rw [hspec.1, hany]
      have hsucc := hspec.2 hany
      rw [Bool.false_or] at hsucc
      cases hpass : entries.any entryPassed with
      | true =>
          have hc : classification (scan_run entries) = .success := by
            rw [classification, scan_run, herr, if_neg (by simp), hsucc, hpass, if_pos rfl]
          rw [hc]
          exact ⟨iff_of_false (by simp) (by simp),
            iff_of_true rfl ⟨rfl, rfl⟩,
            iff_of_false (by simp) (fun h => absurd h.2 (by simp))⟩
      | false =>
          have hc : classification (scan_run entries) = .skip := by
            rw [classification, scan_run, herr, if_neg (by simp), hsucc, hpass,
                if_neg (by simp)]
          rw [hc]
          exact ⟨iff_of_false (by simp) (by simp),
            iff_of_false (by simp) (fun h => absurd h.2 (by simp)),
            iff_of_true rfl ⟨rfl, rfl⟩⟩

/-- C4: `is_result_code_skip` accepts exactly the codes 0xFD and 0xFE;
during a per-core run, an instance whose status reads `"fail"` and whose
details parse to such a code is treated as inconclusive and the loop
continues with the remaining instances unchanged, while any other parsed
code is a confirmed failure: the error is logged and no further instance
is scanned for that core. -/
theorem c4_fail_code_classification (e : IfsEntry) (rest : List IfsEntry) (acc : Bool)
    (det : List Char) (code : Nat)
    (hdir : e.isDir = true) (hname : memcmpLit "intel_ifs_".toList e.d_name = true)
    (hopen : e.openOk = true) (hrun : e.runWriteOk = true)
    (hstS : e.statusRead.isSome = true)
    (hfail : memcmpLit "fail".toList (e.statusRead.getD []) = true)
    (hdet : e.detailsRead = some det) (hcode : parseHexLLX det = some code) :
    (is_result_code_skip code = true ↔ (code = 0xFD ∨ code = 0xFE))
  ∧ (is_result_code_skip code = true → scanEntries (e :: rest) acc = scanEntries rest acc)
  ∧ (is_result_code_skip code = false → scanEntries (e :: rest) acc = ⟨acc, true⟩) := by
  have hdetS : e.detailsRead.isSome = true := by rw [hdet]; rfl
  have hdg : e.detailsRead.getD [] = det := by rw [hdet]; rfl
  refine ⟨?_, ?_, ?_⟩
  · rw [is_result_code_skip, IFS_SW_TIMEOUT, IFS_SW_PARTIAL_COMPLETION]
    simp
  · intro hsk
    rw [scanEntries, if_neg (not_not_intro ⟨hdir, hname⟩), if_neg (by rw [hopen]; simp),
        if_neg (by rw [hrun]; simp), if_neg (by rw [hstS]; simp), if_pos hfail,
        if_neg (by rw [hdetS]; simp),
        if_pos ⟨by rw [hdg, hcode]; rfl, by rw [hdg, hcode]; exact hsk⟩]
  · intro hsk
    rw [scanEntries, if_neg (not_not_intro ⟨hdir, hname⟩), if_neg (by rw [hopen]; simp),
        if_neg (by rw [hrun]; simp), if_neg (by rw [hstS]; simp), if_pos hfail,
        if_neg (by rw [hdetS]; simp), if_neg ?hnsk]
    case hnsk =>
      intro hcontra
      rw [hdg, hcode] at hcontra
      have hsk' : is_result_code_skip code = true := hcontra.2
      rw [hsk] at hsk'
      exact Bool.false_ne_true hsk'

/-- C4 witness: a concrete `intel_ifs_0` entry whose status reads
`"fail"` and whose details read `"0xfd"` is inconclusive: the code
parses to 0xFD, which `is_result_code_skip` accepts, and scanning
continues. -/
theorem c4_fail_code_classification_witness :
    (is_result_code_skip 0xFD = true ↔ ((0xFD : Nat) = 0xFD ∨ (0xFD : Nat) = 0xFE))
  ∧ scanEntries
      (⟨"intel_ifs_0".toList, true, true, true, some "fail".toList, some "0xfd".toList⟩ :: [])
      false = scanEntries [] false :=
  ⟨(c4_fail_code_classification
      ⟨"intel_ifs_0".toList, true, true, true, some "fail".toList, some "0xfd".toList⟩
      [] false "0xfd".toList 0xFD rfl (by decide) rfl rfl rfl (by decide) rfl (by decide)).1,
   (c4_fail_code_classification
      ⟨"intel_ifs_0".toList, true, true, true, some "fail".toList, some "0xfd".toList⟩
      [] false "0xfd".toList 0xFD rfl (by decide) rfl rfl rfl (by decide) rfl (by decide)).2.1
     (by decide)⟩

end Ifs
